import Mathlib

/-!
Verification of the Rainforest Resin market-making engine
(`resin_mm_flat_params.py`): data model, the two-phase order
generation algorithm, the telemetry serializer, and the step
orchestrator, embedded as executable Lean definitions.
-/

/-- Product symbol of the concrete strategy. -/
def resinSym : String := "RAINFOREST_RESIN"

/-- The empty string (initial logger buffer, empty trader data). -/
def emptyStr : String := ""

/-- An order: instrument symbol, price, signed quantity
(positive = buy, negative = sell). -/
structure Order where
  symbol : String
  price : Int
  quantity : Int
deriving DecidableEq

/-- One instrument's order book: price-to-volume tables for each side,
kept in the dict's insertion order.  Sell-side volumes are negative by
convention, buy-side volumes positive. -/
structure OrderDepth where
  buy_orders : List (Int × Int)
  sell_orders : List (Int × Int)
deriving DecidableEq

/-- A listing entry of the snapshot (serialized by the telemetry logger). -/
structure Listing where
  symbol : String
  product : String
  denomination : String
deriving DecidableEq

/-- A trade record of the snapshot (serialized by the telemetry logger). -/
structure Trade where
  symbol : String
  price : Int
  quantity : Int
  buyer : String
  seller : String
  timestamp : Int
deriving DecidableEq

/-- A per-product conversion observation (serialized by the logger). -/
structure ConversionObservation where
  bidPrice : Int
  askPrice : Int
  transportFees : Int
  exportTariff : Int
  importTariff : Int
  sugarPrice : Int
  sunlightIndex : Int
deriving DecidableEq

/-- The observations part of the snapshot. -/
structure Observation where
  plainValueObservations : List (String × Int)
  conversionObservations : List (String × ConversionObservation)
deriving DecidableEq

/-- The per-step market snapshot.  Python dicts become association
lists in insertion order. -/
structure TradingState where
  timestamp : Int
  traderData : String
  listings : List (String × Listing)
  order_depths : List (String × OrderDepth)
  own_trades : List (String × List Trade)
  market_trades : List (String × List Trade)
  position : List (String × Int)
  observations : Observation
deriving DecidableEq

/-- Python dict lookup on an association list (first binding wins). -/
def alookup {α : Type} (l : List (String × α)) (k : String) : Option α :=
  match l with
  | [] => none
  | (k', v) :: rest => if k' = k then some v else alookup rest k

/-- Message carried by the model of Python's `KeyError` raised on
`state.order_depths[self.productSymbol]` when the key is absent. -/
def keyErrorMsg : String := "KeyError"

/-- The market-making strategy state: the fields of `Product_Strategy`
(`productSymbol`, `limit`) and `mm_Product_Strategy` (`custom_limit`,
`spread`, `liquidate_val`), plus the abstract `fairValue` estimator. -/
structure mm_Product_Strategy where
  productSymbol : String
  limit : Int
  custom_limit : Int
  spread : Int
  liquidate_val : Int
  fairValue : TradingState → Int

/-- Phase-1 loop over `order_depth.sell_orders` (source lines 180-184):
take a sell level when its price is at most `fair_buy_price` and the
fill keeps the running position at most `limit`.  Threads the order
accumulator, the running position, and the logger text. -/
def buyLoop (sym : String) (fair_buy_price limit : Int) :
    List (Int × Int) → Int → List Order → String → List Order × Int × String
  | [], pos, orders, logs => (orders, pos, logs)
  | (price, volume) :: rest, pos, orders, logs =>
    if price ≤ fair_buy_price ∧ pos - volume ≤ limit then
      buyLoop sym fair_buy_price limit rest (pos - volume)
        (orders ++ [⟨sym, price, -volume⟩])
        (logs ++ "BUY " ++ toString (-volume) ++ "x " ++ toString price ++ "\n")
    else
      buyLoop sym fair_buy_price limit rest pos orders logs

/-- Phase-1 loop over `order_depth.buy_orders` (source lines 187-191):
hit a buy level when its price is at least `fair_sell_price` and the
fill keeps the running position at least `-limit`. -/
def sellLoop (sym : String) (fair_sell_price limit : Int) :
    List (Int × Int) → Int → List Order → String → List Order × Int × String
  | [], pos, orders, logs => (orders, pos, logs)
  | (price, volume) :: rest, pos, orders, logs =>
    if price ≥ fair_sell_price ∧ pos - volume ≥ -limit then
      sellLoop sym fair_sell_price limit rest (pos - volume)
        (orders ++ [⟨sym, price, -volume⟩])
        (logs ++ "SELL " ++ toString volume ++ "x " ++ toString price ++ "\n")
    else
      sellLoop sym fair_sell_price limit rest pos orders logs

/-- Phase 1 of `makeOrders` (source lines 166-191): skew the quote
prices from the starting position, then sweep both book sides.
Returns the emitted orders, the updated running position, and logs. -/
def phase1 (s : mm_Product_Strategy) (fair_price : Int) (order_depth : OrderDepth)
    (current_position : Int) (logs : String) : List Order × Int × String :=
  let fair_buy_price :=
    if current_position ≤ -s.custom_limit then fair_price + s.liquidate_val
    else fair_price - s.spread
  let fair_sell_price :=
    if current_position ≥ s.custom_limit then fair_price - s.liquidate_val
    else fair_price + s.spread
  let r := buyLoop s.productSymbol fair_buy_price s.limit order_depth.sell_orders
    current_position [] logs
  sellLoop s.productSymbol fair_sell_price s.limit order_depth.buy_orders r.2.1 r.1 r.2.2

/-- Phase 2 of `makeOrders` (source lines 193-216): re-skew the quote
prices from the post-phase-1 position, then either liquidate back to 0
or post `custom_limit`-sized quotes on both sides.  Returns the
appended orders and the appended log text (the source's line 209 logs
`fair_buy_price` in the SELL message; this is kept as-is). -/
def phase2 (s : mm_Product_Strategy) (fair_price : Int) (current_position : Int) :
    List Order × String :=
  let fair_buy_price :=
    if current_position ≤ -s.custom_limit then fair_price + s.liquidate_val
    else fair_price - s.spread
  let fair_sell_price :=
    if current_position ≥ s.custom_limit then fair_price - s.liquidate_val
    else fair_price + s.spread
  if current_position ≤ -s.custom_limit then
    ([⟨s.productSymbol, fair_buy_price, -current_position⟩],
      "BUY " ++ toString current_position.natAbs ++ "x " ++ toString fair_buy_price ++ "\n")
  else if current_position ≥ s.custom_limit then
    ([⟨s.productSymbol, fair_sell_price, -current_position⟩],
      "SELL " ++ toString current_position.natAbs ++ "x " ++ toString fair_buy_price ++ "\n")
  else
    ([⟨s.productSymbol, fair_buy_price, s.custom_limit⟩,
      ⟨s.productSymbol, fair_sell_price, -s.custom_limit⟩],
      "BUY " ++ toString s.custom_limit.natAbs ++ "x " ++ toString fair_buy_price ++ "\n"
        ++ "SELL " ++ toString s.custom_limit.natAbs ++ "x " ++ toString fair_sell_price ++ "\n")

/-- The body of `makeOrders` after the snapshot lookups: phase 1
followed by phase 2, with the order list and logger text accumulated. -/
def makeOrdersCore (s : mm_Product_Strategy) (fair_price : Int) (order_depth : OrderDepth)
    (current_position : Int) (logs : String) : List Order × String :=
  let r := phase1 s fair_price order_depth current_position logs
  let p2 := phase2 s fair_price r.2.1
  (r.1 ++ p2.1, r.2.2 ++ p2.2)

/-- `mm_Product_Strategy.makeOrders` (source lines 155-217).  The
order-depth lookup models Python's `state.order_depths[sym]`, which
raises `KeyError` when the key is absent; a missing position entry is
read as 0.  The logger text is threaded explicitly. -/
def mm_Product_Strategy.makeOrders (s : mm_Product_Strategy) (state : TradingState)
    (logs : String) : Except String (List Order) × String :=
  match alookup state.order_depths s.productSymbol with
  | none => (Except.error keyErrorMsg, logs)
  | some order_depth =>
    let current_position :=
      match alookup state.position s.productSymbol with
      | none => 0
      | some p => p
    let fair_price := s.fairValue state
    let r := makeOrdersCore s fair_price order_depth current_position logs
    (Except.ok r.1, r.2)

/-- State-threading rendering of `makeOrders`: every statement of the
source only reads the snapshot, so each branch returns the snapshot it
was given.  Used to express that the call leaves its input unchanged. -/
def mm_Product_Strategy.makeOrdersST (s : mm_Product_Strategy) (state : TradingState)
    (logs : String) : Except String (List Order) × TradingState × String :=
  match alookup state.order_depths s.productSymbol with
  | none => (Except.error keyErrorMsg, state, logs)
  | some order_depth =>
    let current_position :=
      match alookup state.position s.productSymbol with
      | none => 0
      | some p => p
    let fair_price := s.fairValue state
    let r := makeOrdersCore s fair_price order_depth current_position logs
    (Except.ok r.1, state, r.2)

/-- The concrete `Rainforest_Resin_Strategy` (source lines 221-233):
symbol RAINFOREST_RESIN, limit 50, spread 2, custom limit 15,
liquidate value 0, constant fair value 10000. -/
def Rainforest_Resin_Strategy : mm_Product_Strategy where
  productSymbol := resinSym
  limit := 50
  custom_limit := 15
  spread := 2
  liquidate_val := 0
  fairValue := fun _ => 10000

/-- The strategy registry (source lines 236-237). -/
def strategies : List (String × mm_Product_Strategy) :=
  [(resinSym, Rainforest_Resin_Strategy)]

/-- The order book of the spec's first worked example: one sell level
9998 with volume -5 and one buy level 10002 with volume 4. -/
def scene1Depth : OrderDepth := ⟨[(10002, 4)], [(9998, -5)]⟩

/-- The snapshot of the spec's first worked example: the book above
and starting position 0 for RAINFOREST_RESIN. -/
def scene1State : TradingState :=
  ⟨0, emptyStr, [], [(resinSym, scene1Depth)], [], [], [(resinSym, 0)], ⟨[], []⟩⟩

/-- JSON values produced by the logger's compress functions: integers,
strings, arrays, and string-keyed objects. -/
inductive JVal where
  | jint : Int → JVal
  | jstr : String → JVal
  | jarr : List JVal → JVal
  | jobj : List (String × JVal) → JVal

/-- Hexadecimal digits of a code point, zero-padded to four places
(the `uXXXX` part of a JSON escape). -/
def hex4 (n : Nat) : List Char :=
  let d := Nat.toDigits 16 n
  List.replicate (4 - d.length) '0' ++ d

/-- JSON escape of one character, following `json.dumps` defaults
(`ensure_ascii`): named escapes for the common control characters,
`uXXXX` escapes for the remaining control characters and for non-ASCII
characters of the basic plane, a `uXXXXuXXXX` surrogate-pair escape
for code points above 0xFFFF, and the character itself otherwise. -/
def escChar (c : Char) : List Char :=
  if c = '"' then ['\\', '"']
  else if c = '\\' then ['\\', '\\']
  else if c = '\n' then ['\\', 'n']
  else if c = '\t' then ['\\', 't']
  else if c = '\r' then ['\\', 'r']
  else if c = '\x08' then ['\\', 'b']
  else if c = '\x0c' then ['\\', 'f']
  else if c.toNat < 32 ∨ 126 < c.toNat then
    if c.toNat < 65536 then '\\' :: 'u' :: hex4 c.toNat
    else
      '\\' :: 'u' :: hex4 (55296 + (c.toNat - 65536) / 1024)
        ++ '\\' :: 'u' :: hex4 (56320 + (c.toNat - 65536) % 1024)
  else [c]

/-- JSON escape of a string's contents (without the outer quotes). -/
def escape (s : String) : String := String.mk (s.data.flatMap escChar)

mutual

/-- `json.dumps` with separators `(",", ":")` on compressed values. -/
def dumps : JVal → String
  | JVal.jint n => toString n
  | JVal.jstr s => "\"" ++ escape s ++ "\""
  | JVal.jarr l => "[" ++ dumpsArr l ++ "]"
  | JVal.jobj l => "\x7b" ++ dumpsObj l ++ "\x7d"

/-- Comma-separated serialization of a JSON array's elements. -/
def dumpsArr : List JVal → String
  | [] => emptyStr
  | [v] => dumps v
  | v :: w :: rest => dumps v ++ "," ++ dumpsArr (w :: rest)

/-- Comma-separated serialization of a JSON object's entries. -/
def dumpsObj : List (String × JVal) → String
  | [] => emptyStr
  | [(k, v)] => "\"" ++ escape k ++ "\":" ++ dumps v
  | (k, v) :: w :: rest =>
    "\"" ++ escape k ++ "\":" ++ dumps v ++ "," ++ dumpsObj (w :: rest)

end

/-- `Logger.compress_listings` (source lines 56-61). -/
def compress_listings (listings : List (String × Listing)) : JVal :=
  JVal.jarr (listings.map fun p =>
    JVal.jarr [JVal.jstr p.2.symbol, JVal.jstr p.2.product, JVal.jstr p.2.denomination])

/-- `Logger.compress_order_depths` (source lines 63-68); JSON turns the
integer price keys of the side dicts into strings. -/
def compress_order_depths (order_depths : List (String × OrderDepth)) : JVal :=
  JVal.jobj (order_depths.map fun p =>
    (p.1, JVal.jarr
      [JVal.jobj (p.2.buy_orders.map fun q => (toString q.1, JVal.jint q.2)),
       JVal.jobj (p.2.sell_orders.map fun q => (toString q.1, JVal.jint q.2))]))

/-- `Logger.compress_trades` (source lines 70-85). -/
def compress_trades (trades : List (String × List Trade)) : JVal :=
  JVal.jarr ((trades.flatMap fun p => p.2).map fun t =>
    JVal.jarr [JVal.jstr t.symbol, JVal.jint t.price, JVal.jint t.quantity,
      JVal.jstr t.buyer, JVal.jstr t.seller, JVal.jint t.timestamp])

/-- `Logger.compress_observations` (source lines 87-100). -/
def compress_observations (o : Observation) : JVal :=
  JVal.jarr
    [JVal.jobj (o.plainValueObservations.map fun p => (p.1, JVal.jint p.2)),
     JVal.jobj (o.conversionObservations.map fun p =>
       (p.1, JVal.jarr [JVal.jint p.2.bidPrice, JVal.jint p.2.askPrice,
         JVal.jint p.2.transportFees, JVal.jint p.2.exportTariff,
         JVal.jint p.2.importTariff, JVal.jint p.2.sugarPrice,
         JVal.jint p.2.sunlightIndex]))]

/-- `Logger.compress_state` (source lines 44-54). -/
def compress_state (state : TradingState) (trader_data : String) : JVal :=
  JVal.jarr [JVal.jint state.timestamp, JVal.jstr trader_data,
    compress_listings state.listings, compress_order_depths state.order_depths,
    compress_trades state.own_trades, compress_trades state.market_trades,
    JVal.jobj (state.position.map fun p => (p.1, JVal.jint p.2)),
    compress_observations state.observations]

/-- `Logger.compress_orders` (source lines 102-108). -/
def compress_orders (orders : List (String × List Order)) : JVal :=
  JVal.jarr ((orders.flatMap fun p => p.2).map fun o =>
    JVal.jarr [JVal.jstr o.symbol, JVal.jint o.price, JVal.jint o.quantity])

/-- `Logger.max_log_length` (source line 9). -/
def max_log_length : Int := 3750

/-- Python's `s[:k]` for a possibly negative bound `k`. -/
def pyTake (s : String) (k : Int) : String :=
  if 0 ≤ k then s.take k.toNat else s.take (s.length - (-k).toNat)

/-- `Logger.truncate` (source lines 113-117): keep the string if it
fits, else cut it to `max_length - 3` characters and add an ellipsis.
`max_length` can be negative when the base serialization is large. -/
def Logger.truncate (value : String) (max_length : Int) : String :=
  if (value.length : Int) ≤ max_length then value
  else pyTake value (max_length - 3) ++ "..."

/-- The five-element array serialized by `Logger.flush`, with the
three free-text fields (`state.traderData`, `trader_data`,
`self.logs`) as parameters. -/
def flushArr (state : TradingState) (orders : List (String × List Order))
    (conversions : Int) (t1 t2 t3 : String) : JVal :=
  JVal.jarr [compress_state state t1, compress_orders orders, JVal.jint conversions,
    JVal.jstr t2, JVal.jstr t3]

/-- `Logger.flush` (source lines 14-42): measure the serialization
with the three free-text fields empty, split the remaining budget
evenly (Python floor division) among them, truncate each, and print
the resulting line; the accumulated logs are then reset.  Returns the
printed line and the new (empty) log buffer. -/
def Logger.flush (logs : String) (state : TradingState)
    (orders : List (String × List Order)) (conversions : Int) (trader_data : String) :
    String × String :=
  let base_length : Int := (dumps (flushArr state orders conversions emptyStr emptyStr emptyStr)).length
  let max_item_length := Int.fdiv (max_log_length - base_length) 3
  let line := dumps (flushArr state orders conversions
    (Logger.truncate state.traderData max_item_length)
    (Logger.truncate trader_data max_item_length)
    (Logger.truncate logs max_item_length))
  (line, emptyStr)

/-- The per-product loop of `Trader.run` (source lines 247-251):
iterate the keys of `state.market_trades`, skip products missing from
the registry, and collect each found strategy's orders; a `KeyError`
raised inside `makeOrders` propagates. -/
def runLoop (state : TradingState) :
    List (String × List Trade) → List (String × List Order) → String →
      Except String (List (String × List Order)) × String
  | [], result, logs => (Except.ok result, logs)
  | (product, _) :: rest, result, logs =>
    match alookup strategies product with
    | none => runLoop state rest result logs
    | some strat =>
      match strat.makeOrders state logs with
      | (Except.error e, logs') => (Except.error e, logs')
      | (Except.ok orders, logs') => runLoop state rest (result ++ [(product, orders)]) logs'

/-- `Trader.run` (source lines 240-253): run the per-product loop with
conversions 0 and empty trader data, then flush the logger.  Returns
the run's result triple, the logger buffer after the flush, and the
printed log line. -/
def Trader.run (state : TradingState) (logs : String) :
    Except String ((List (String × List Order) × Int × String) × String × String) :=
  match runLoop state state.market_trades [] logs with
  | (Except.error e, _) => Except.error e
  | (Except.ok result, logs') =>
    let f := Logger.flush logs' state result 0 emptyStr
    Except.ok ((result, 0, emptyStr), f.2, f.1)

/-- The spec's position-dependent buy-price rule (§4.2 step 2), as the
spec's suggested `skewedPrices` helper: pay `fairValue + liquidateVal`
when severely short, otherwise quote `fairValue - spread`. -/
def skewedBuyPrice (custom_limit liquidate_val spread fair_price pos : Int) : Int :=
  if pos ≤ -custom_limit then fair_price + liquidate_val else fair_price - spread

/-- The spec's position-dependent sell-price rule: discount to
`fairValue - liquidateVal` when severely long, otherwise quote
`fairValue + spread`. -/
def skewedSellPrice (custom_limit liquidate_val spread fair_price pos : Int) : Int :=
  if pos ≥ custom_limit then fair_price - liquidate_val else fair_price + spread

/-- Position reached after applying every order of a list to a
starting position (buys add their quantity, sells subtract). -/
def applyOrders (pos : Int) (l : List Order) : Int :=
  pos + (l.map Order.quantity).sum

/-- A string is plain when every character JSON-escapes to itself
(printable ASCII other than the quote and the backslash). -/
def isPlain (s : String) : Bool :=
  s.data.all fun c => escChar c == [c]

/-- The phase-1 buy loop run from empty accumulators. -/
def buyLoop0 (sym : String) (fbp lim : Int) (lvls : List (Int × Int)) (pos : Int) :
    List Order × Int × String :=
  buyLoop sym fbp lim lvls pos [] emptyStr

/-- The phase-1 sell loop run from empty accumulators. -/
def sellLoop0 (sym : String) (fsp lim : Int) (lvls : List (Int × Int)) (pos : Int) :
    List Order × Int × String :=
  sellLoop sym fsp lim lvls pos [] emptyStr

/-- An empty order book. -/
def emptyDepth : OrderDepth := ⟨[], []⟩

/-- A minimal snapshot: everything empty, timestamp 0. -/
def state0 : TradingState := ⟨0, emptyStr, [], [], [], [], [], ⟨[], []⟩⟩

/-- A snapshot carrying an order book for RAINFOREST_RESIN but no
position entry for it. -/
def noPosState : TradingState :=
  ⟨0, emptyStr, [], [(resinSym, scene1Depth)], [], [], [], ⟨[], []⟩⟩

/-- A snapshot with an empty RAINFOREST_RESIN book and position -20. -/
def negState : TradingState :=
  ⟨0, emptyStr, [], [(resinSym, emptyDepth)], [], [], [(resinSym, -20)], ⟨[], []⟩⟩

/-- Symbol of the counterexample strategy below. -/
def cexSym : String := "CEX"

/-- A market-making strategy whose phase-2 quote size `custom_limit`
exceeds the headroom that `limit` can leave after phase 1
(`2 * custom_limit > limit + 1`), with constant fair value 100. -/
def cexStrategy : mm_Product_Strategy where
  productSymbol := cexSym
  limit := 10
  custom_limit := 8
  spread := 2
  liquidate_val := 0
  fairValue := fun _ => 100

/-- A snapshot for `cexStrategy`: empty book, starting position 7
(within `[-limit, limit] = [-10, 10]`). -/
def cexStateC1 : TradingState :=
  ⟨0, emptyStr, [], [(cexSym, emptyDepth)], [], [], [(cexSym, 7)], ⟨[], []⟩⟩

/-- The orders `cexStrategy` emits on `cexStateC1`. -/
def cexOrders : List Order := [⟨cexSym, 98, 8⟩, ⟨cexSym, 102, -8⟩]

/-- A symbol not present in the strategy registry. -/
def kelpSym : String := "KELP"

/-- A snapshot whose `market_trades` has only the unregistered symbol
KELP, while RAINFOREST_RESIN (registered) has no `market_trades`
entry. -/
def mtState : TradingState :=
  ⟨0, emptyStr, [], [(resinSym, scene1Depth)], [], [(kelpSym, [])], [], ⟨[], []⟩⟩

/-- A 3800-character symbol, used to blow the telemetry length
budget through the untruncated part of the serialization. -/
def bigSym : String := String.mk (List.replicate 3800 'A')

/-- A snapshot whose position table carries `bigSym`, so that the
serialization with the three free-text fields empty already exceeds
the log budget. -/
def bigState : TradingState :=
  ⟨0, emptyStr, [], [], [], [], [(bigSym, 0)], ⟨[], []⟩⟩

theorem applyOrders_nil (pos : Int) : applyOrders pos [] = pos := by
  simp [applyOrders]

theorem applyOrders_append (pos : Int) (l1 l2 : List Order) :
    applyOrders pos (l1 ++ l2) = applyOrders (applyOrders pos l1) l2 := by
  simp [applyOrders]
  ring

theorem applyOrders_cons (pos : Int) (o : Order) (l : List Order) :
    applyOrders pos (o :: l) = applyOrders (pos + o.quantity) l := by
  simp [applyOrders]
  ring

/-- The phase-1 buy loop appends to its accumulators: its result is
the initial accumulator followed by what the loop produces from an
empty accumulator, and likewise for the log text. -/
theorem buyLoop_acc (sym : String) (fbp lim : Int) :
    ∀ (lvls : List (Int × Int)) (pos : Int) (acc : List Order) (logs : String),
      buyLoop sym fbp lim lvls pos acc logs =
        (acc ++ (buyLoop0 sym fbp lim lvls pos).1,
          (buyLoop0 sym fbp lim lvls pos).2.1,
          logs ++ (buyLoop0 sym fbp lim lvls pos).2.2) := by
  intro lvls
  induction lvls with
  | nil => intro pos acc logs; simp [buyLoop, buyLoop0, emptyStr, String.append_empty]
  | cons hd tl ih =>
    intro pos acc logs
    rcases hd with ⟨price, volume⟩
    by_cases h : price ≤ fbp ∧ pos - volume ≤ lim
    · simp only [buyLoop0, buyLoop, if_pos h]
      simp only [ih]
      simp [List.append_assoc, String.append_assoc, emptyStr, String.empty_append]
    · simp only [buyLoop0, buyLoop, if_neg h]
      simp only [ih]
      simp [emptyStr, String.empty_append]
  
/-- The phase-1 sell loop appends to its accumulators. -/
theorem sellLoop_acc (sym : String) (fsp lim : Int) :
    ∀ (lvls : List (Int × Int)) (pos : Int) (acc : List Order) (logs : String),
      sellLoop sym fsp lim lvls pos acc logs =
        (acc ++ (sellLoop0 sym fsp lim lvls pos).1,
          (sellLoop0 sym fsp lim lvls pos).2.1,
          logs ++ (sellLoop0 sym fsp lim lvls pos).2.2) := by
  intro lvls
  induction lvls with
  | nil => intro pos acc logs; simp [sellLoop, sellLoop0, emptyStr, String.append_empty]
  | cons hd tl ih =>
    intro pos acc logs
    rcases hd with ⟨price, volume⟩
    by_cases h : price ≥ fsp ∧ pos - volume ≥ -lim
    · simp only [sellLoop0, sellLoop, if_pos h]
      simp only [ih]
      simp [List.append_assoc, String.append_assoc, emptyStr, String.empty_append]
    · simp only [sellLoop0, sellLoop, if_neg h]
      simp only [ih]
      simp [emptyStr, String.empty_append]

/-- Along the phase-1 buy loop, when sell-side volumes are negative
and the starting position is within the hard limit, the final running
position is the start plus all emitted quantities, and the position
after any initial segment of the emitted orders stays within
`[-limit, limit]`. -/
theorem buyLoop0_spec (sym : String) (fbp lim : Int) :
    ∀ (lvls : List (Int × Int)) (pos : Int),
      (∀ pv ∈ lvls, pv.2 < 0) → -lim ≤ pos → pos ≤ lim →
      (buyLoop0 sym fbp lim lvls pos).2.1 =
          applyOrders pos (buyLoop0 sym fbp lim lvls pos).1
        ∧ ∀ k, -lim ≤ applyOrders pos (((buyLoop0 sym fbp lim lvls pos).1).take k)
            ∧ applyOrders pos (((buyLoop0 sym fbp lim lvls pos).1).take k) ≤ lim := by
  intro lvls
  induction lvls with
  | nil =>
    intro pos _ hlb hub
    refine ⟨by simp [buyLoop0, buyLoop, applyOrders], ?_⟩
    intro k
    simp [buyLoop0, buyLoop, applyOrders]
    omega
  | cons hd tl ih =>
    intro pos hsign hlb hub
    rcases hd with ⟨price, volume⟩
    have hvol : volume < 0 := hsign (price, volume) (by simp)
    have htl : ∀ pv ∈ tl, pv.2 < 0 := fun pv hpv => hsign pv (by simp [hpv])
    by_cases h : price ≤ fbp ∧ pos - volume ≤ lim
    · have hlb' : -lim ≤ pos - volume := by omega
      have hub' : pos - volume ≤ lim := h.2
      obtain ⟨ihpos, ihbd⟩ := ih (pos - volume) htl hlb' hub'
      have hred : buyLoop0 sym fbp lim ((price, volume) :: tl) pos =
          (⟨sym, price, -volume⟩ :: (buyLoop0 sym fbp lim tl (pos - volume)).1,
            (buyLoop0 sym fbp lim tl (pos - volume)).2.1,
            "BUY " ++ toString (-volume) ++ "x " ++ toString price ++ "\n"
              ++ (buyLoop0 sym fbp lim tl (pos - volume)).2.2) := by
        simp only [buyLoop0, buyLoop, if_pos h]
        rw [buyLoop_acc]
        simp [buyLoop0, String.append_assoc, emptyStr, String.empty_append]
      rw [hred]
      constructor
      · simp only [applyOrders_cons]
        rw [ihpos]
        rfl
      · intro k
        cases k with
        | zero => simp [applyOrders]; omega
        | succ k =>
          simp only [List.take_succ_cons, applyOrders_cons]
          have : pos + Order.quantity ⟨sym, price, -volume⟩ = pos - volume := by
            simp
            omega
          rw [this]
          exact ihbd k
    · have hred : buyLoop0 sym fbp lim ((price, volume) :: tl) pos =
          buyLoop0 sym fbp lim tl pos := by
        simp only [buyLoop0, buyLoop, if_neg h]
      rw [hred]
      exact ih pos htl hlb hub

/-- Along the phase-1 sell loop, when buy-side volumes are positive
and the starting position is within the hard limit, the final running
position is the start plus all emitted quantities, and the position
after any initial segment of the emitted orders stays within
`[-limit, limit]`. -/
theorem sellLoop0_spec (sym : String) (fsp lim : Int) :
    ∀ (lvls : List (Int × Int)) (pos : Int),
      (∀ pv ∈ lvls, 0 < pv.2) → -lim ≤ pos → pos ≤ lim →
      (sellLoop0 sym fsp lim lvls pos).2.1 =
          applyOrders pos (sellLoop0 sym fsp lim lvls pos).1
        ∧ ∀ k, -lim ≤ applyOrders pos (((sellLoop0 sym fsp lim lvls pos).1).take k)
            ∧ applyOrders pos (((sellLoop0 sym fsp lim lvls pos).1).take k) ≤ lim := by
  intro lvls
  induction lvls with
  | nil =>
    intro pos _ hlb hub
    refine ⟨by simp [sellLoop0, sellLoop, applyOrders], ?_⟩
    intro k
    simp [sellLoop0, sellLoop, applyOrders]
    omega
  | cons hd tl ih =>
    intro pos hsign hlb hub
    rcases hd with ⟨price, volume⟩
    have hvol : 0 < volume := hsign (price, volume) (by simp)
    have htl : ∀ pv ∈ tl, 0 < pv.2 := fun pv hpv => hsign pv (by simp [hpv])
    by_cases h : price ≥ fsp ∧ pos - volume ≥ -lim
    · have hlb' : -lim ≤ pos - volume := h.2
      have hub' : pos - volume ≤ lim := by omega
      obtain ⟨ihpos, ihbd⟩ := ih (pos - volume) htl hlb' hub'
      have hred : sellLoop0 sym fsp lim ((price, volume) :: tl) pos =
          (⟨sym, price, -volume⟩ :: (sellLoop0 sym fsp lim tl (pos - volume)).1,
            (sellLoop0 sym fsp lim tl (pos - volume)).2.1,
            "SELL " ++ toString volume ++ "x " ++ toString price ++ "\n"
              ++ (sellLoop0 sym fsp lim tl (pos - volume)).2.2) := by
        simp only [sellLoop0, sellLoop, if_pos h]
        rw [sellLoop_acc]
        simp [sellLoop0, String.append_assoc, emptyStr, String.empty_append]
      rw [hred]
      constructor
      · simp only [applyOrders_cons]
        rw [ihpos]
        rfl
      · intro k
        cases k with
        | zero => simp [applyOrders]; omega
        | succ k =>
          simp only [List.take_succ_cons, applyOrders_cons]
          have : pos + Order.quantity ⟨sym, price, -volume⟩ = pos - volume := by
            simp
            omega
          rw [this]
          exact ihbd k
    · have hred : sellLoop0 sym fsp lim ((price, volume) :: tl) pos =
          sellLoop0 sym fsp lim tl pos := by
        simp only [sellLoop0, sellLoop, if_neg h]
      rw [hred]
      exact ih pos htl hlb hub

/-- Phase 1 decomposed: the buy sweep at the skewed buy price, then
the sell sweep at the skewed sell price from the updated position,
with orders and log text concatenated. -/
theorem phase1_eq (s : mm_Product_Strategy) (fp : Int) (od : OrderDepth) (pos : Int)
    (logs : String) :
    phase1 s fp od pos logs =
      ((buyLoop0 s.productSymbol (skewedBuyPrice s.custom_limit s.liquidate_val s.spread fp pos)
          s.limit od.sell_orders pos).1 ++
        (sellLoop0 s.productSymbol (skewedSellPrice s.custom_limit s.liquidate_val s.spread fp pos)
          s.limit od.buy_orders
          (buyLoop0 s.productSymbol (skewedBuyPrice s.custom_limit s.liquidate_val s.spread fp pos)
            s.limit od.sell_orders pos).2.1).1,
       (sellLoop0 s.productSymbol (skewedSellPrice s.custom_limit s.liquidate_val s.spread fp pos)
          s.limit od.buy_orders
          (buyLoop0 s.productSymbol (skewedBuyPrice s.custom_limit s.liquidate_val s.spread fp pos)
            s.limit od.sell_orders pos).2.1).2.1,
       logs ++ (buyLoop0 s.productSymbol (skewedBuyPrice s.custom_limit s.liquidate_val s.spread fp pos)
          s.limit od.sell_orders pos).2.2
         ++ (sellLoop0 s.productSymbol (skewedSellPrice s.custom_limit s.liquidate_val s.spread fp pos)
          s.limit od.buy_orders
          (buyLoop0 s.productSymbol (skewedBuyPrice s.custom_limit s.liquidate_val s.spread fp pos)
            s.limit od.sell_orders pos).2.1).2.2) := by
  simp only [phase1, skewedBuyPrice, skewedSellPrice]
  rw [buyLoop_acc]
  rw [sellLoop_acc]
  simp [buyLoop0, emptyStr, String.empty_append]

/-- Through phase 1, with correctly signed book volumes and a start
position within the hard limit, the updated running position equals
the start plus all emitted quantities, and the position after any
initial segment of the phase-1 orders stays within `[-limit, limit]`. -/
theorem phase1_spec (s : mm_Product_Strategy) (fp : Int) (od : OrderDepth) (pos : Int)
    (logs : String)
    (hsell : ∀ pv ∈ od.sell_orders, pv.2 < 0)
    (hbuy : ∀ pv ∈ od.buy_orders, 0 < pv.2)
    (hlb : -s.limit ≤ pos) (hub : pos ≤ s.limit) :
    (phase1 s fp od pos logs).2.1 = applyOrders pos (phase1 s fp od pos logs).1
      ∧ ∀ k, -s.limit ≤ applyOrders pos (((phase1 s fp od pos logs).1).take k)
          ∧ applyOrders pos (((phase1 s fp od pos logs).1).take k) ≤ s.limit := by
  rw [phase1_eq]
  obtain ⟨hbpos, hbbd⟩ := buyLoop0_spec s.productSymbol
    (skewedBuyPrice s.custom_limit s.liquidate_val s.spread fp pos) s.limit
    od.sell_orders pos hsell hlb hub
  have hbfin := hbbd (buyLoop0 s.productSymbol
    (skewedBuyPrice s.custom_limit s.liquidate_val s.spread fp pos) s.limit
    od.sell_orders pos).1.length
  rw [List.take_length] at hbfin
  obtain ⟨hspos, hsbd⟩ := sellLoop0_spec s.productSymbol
    (skewedSellPrice s.custom_limit s.liquidate_val s.spread fp pos) s.limit
    od.buy_orders
    (buyLoop0 s.productSymbol (skewedBuyPrice s.custom_limit s.liquidate_val s.spread fp pos)
      s.limit od.sell_orders pos).2.1
    hbuy (by rw [hbpos]; exact hbfin.1) (by rw [hbpos]; exact hbfin.2)
  constructor
  · simp only []
    rw [applyOrders_append, ← hbpos, hspos]
  · intro k
    simp only []
    rw [List.take_append_eq_append_take, applyOrders_append]
    by_cases hk : k ≤ (buyLoop0 s.productSymbol
        (skewedBuyPrice s.custom_limit s.liquidate_val s.spread fp pos) s.limit
        od.sell_orders pos).1.length
    · have h0 : k - (buyLoop0 s.productSymbol
          (skewedBuyPrice s.custom_limit s.liquidate_val s.spread fp pos) s.limit
          od.sell_orders pos).1.length = 0 := by omega
      rw [h0]
      simp only [List.take_zero, applyOrders_nil]
      exact hbbd k
    · have hfull : ((buyLoop0 s.productSymbol
          (skewedBuyPrice s.custom_limit s.liquidate_val s.spread fp pos) s.limit
          od.sell_orders pos).1).take k = (buyLoop0 s.productSymbol
          (skewedBuyPrice s.custom_limit s.liquidate_val s.spread fp pos) s.limit
          od.sell_orders pos).1 := List.take_of_length_le (by omega)
      rw [hfull, ← hbpos]
      exact hsbd _

/-- The orders phase 2 appends, written with the spec's skewed-price
rule evaluated at the (post-phase-1) position it receives. -/
theorem phase2_orders (s : mm_Product_Strategy) (fp pos : Int) :
    (phase2 s fp pos).1 =
      if pos ≤ -s.custom_limit then
        [⟨s.productSymbol, skewedBuyPrice s.custom_limit s.liquidate_val s.spread fp pos, -pos⟩]
      else if pos ≥ s.custom_limit then
        [⟨s.productSymbol, skewedSellPrice s.custom_limit s.liquidate_val s.spread fp pos, -pos⟩]
      else
        [⟨s.productSymbol, skewedBuyPrice s.custom_limit s.liquidate_val s.spread fp pos,
            s.custom_limit⟩,
         ⟨s.productSymbol, skewedSellPrice s.custom_limit s.liquidate_val s.spread fp pos,
            -s.custom_limit⟩] := by
  by_cases h1 : pos ≤ -s.custom_limit <;> by_cases h2 : pos ≥ s.custom_limit <;>
    simp [phase2, skewedBuyPrice, skewedSellPrice, h1, h2]

/-- The order list of `makeOrdersCore` is the phase-1 orders followed
by the phase-2 orders at the updated running position. -/
theorem makeOrdersCore_orders (s : mm_Product_Strategy) (fp : Int) (od : OrderDepth)
    (pos : Int) (logs : String) :
    (makeOrdersCore s fp od pos logs).1 =
      (phase1 s fp od pos logs).1 ++ (phase2 s fp (phase1 s fp od pos logs).2.1).1 := rfl

/-- Positions reached along the phase-2 orders, starting from a
position within the hard limit: bounded by `[-limit, limit]` whenever
`2 * custom_limit ≤ limit + 1`. -/
theorem phase2_bounds (s : mm_Product_Strategy) (fp p1 : Int)
    (hlb : -s.limit ≤ p1) (hub : p1 ≤ s.limit)
    (hcl : 2 * s.custom_limit ≤ s.limit + 1) :
    ∀ m, -s.limit ≤ applyOrders p1 (((phase2 s fp p1).1).take m)
        ∧ applyOrders p1 (((phase2 s fp p1).1).take m) ≤ s.limit := by
  have hlim0 : 0 ≤ s.limit := by omega
  intro m
  rw [phase2_orders]
  by_cases h1 : p1 ≤ -s.custom_limit
  · rw [if_pos h1]
    cases m with
    | zero => simp [applyOrders]; omega
    | succ m => simp [applyOrders]; omega
  · rw [if_neg h1]
    by_cases h2 : p1 ≥ s.custom_limit
    · rw [if_pos h2]
      cases m with
      | zero => simp [applyOrders]; omega
      | succ m => simp [applyOrders]; omega
    · rw [if_neg h2]
      cases m with
      | zero => simp [applyOrders]; omega
      | succ m =>
        cases m with
        | zero => simp [applyOrders]; omega
        | succ m => simp [applyOrders]; omega

/-- Position bound for the full order construction, given the
additional parameter condition `2 * custom_limit ≤ limit + 1`. -/
theorem makeOrdersCore_bounds (s : mm_Product_Strategy) (fp : Int) (od : OrderDepth)
    (pos : Int) (logs : String)
    (hsell : ∀ pv ∈ od.sell_orders, pv.2 < 0)
    (hbuy : ∀ pv ∈ od.buy_orders, 0 < pv.2)
    (hlb : -s.limit ≤ pos) (hub : pos ≤ s.limit)
    (hcl : 2 * s.custom_limit ≤ s.limit + 1) :
    ∀ k, -s.limit ≤ applyOrders pos (((makeOrdersCore s fp od pos logs).1).take k)
        ∧ applyOrders pos (((makeOrdersCore s fp od pos logs).1).take k) ≤ s.limit := by
  intro k
  rw [makeOrdersCore_orders]
  obtain ⟨hppos, hpbd⟩ := phase1_spec s fp od pos logs hsell hbuy hlb hub
  have hpfin := hpbd ((phase1 s fp od pos logs).1).length
  rw [List.take_length] at hpfin
  rw [List.take_append_eq_append_take, applyOrders_append]
  by_cases hk : k ≤ ((phase1 s fp od pos logs).1).length
  · have h0 : k - ((phase1 s fp od pos logs).1).length = 0 := by omega
    rw [h0]
    simp only [List.take_zero, applyOrders_nil]
    exact hpbd k
  · have hfull : ((phase1 s fp od pos logs).1).take k = (phase1 s fp od pos logs).1 :=
      List.take_of_length_le (by omega)
    rw [hfull, ← hppos]
    exact phase2_bounds s fp (phase1 s fp od pos logs).2.1
      (by rw [hppos]; exact hpfin.1) (by rw [hppos]; exact hpfin.2) hcl _

/-- The buy loop processes an appended segment after the first part,
from the first part's final accumulators (no early termination). -/
theorem buyLoop_append (sym : String) (fbp lim : Int) :
    ∀ (xs ys : List (Int × Int)) (pos : Int) (acc : List Order) (logs : String),
      buyLoop sym fbp lim (xs ++ ys) pos acc logs =
        buyLoop sym fbp lim ys (buyLoop sym fbp lim xs pos acc logs).2.1
          (buyLoop sym fbp lim xs pos acc logs).1
          (buyLoop sym fbp lim xs pos acc logs).2.2 := by
  intro xs
  induction xs with
  | nil => intro ys pos acc logs; rfl
  | cons hd tl ih =>
    intro ys pos acc logs
    rcases hd with ⟨price, volume⟩
    by_cases h : price ≤ fbp ∧ pos - volume ≤ lim
    · simp only [List.cons_append, buyLoop, if_pos h]
      exact ih ys _ _ _
    · simp only [List.cons_append, buyLoop, if_neg h]
      exact ih ys _ _ _

/-- The sell loop processes an appended segment after the first part,
from the first part's final accumulators (no early termination). -/
theorem sellLoop_append (sym : String) (fsp lim : Int) :
    ∀ (xs ys : List (Int × Int)) (pos : Int) (acc : List Order) (logs : String),
      sellLoop sym fsp lim (xs ++ ys) pos acc logs =
        sellLoop sym fsp lim ys (sellLoop sym fsp lim xs pos acc logs).2.1
          (sellLoop sym fsp lim xs pos acc logs).1
          (sellLoop sym fsp lim xs pos acc logs).2.2 := by
  intro xs
  induction xs with
  | nil => intro ys pos acc logs; rfl
  | cons hd tl ih =>
    intro ys pos acc logs
    rcases hd with ⟨price, volume⟩
    by_cases h : price ≥ fsp ∧ pos - volume ≥ -lim
    · simp only [List.cons_append, sellLoop, if_pos h]
      exact ih ys _ _ _
    · simp only [List.cons_append, sellLoop, if_neg h]
      exact ih ys _ _ _

/-- The order list and the log text of the core do not depend on the
incoming logger buffer, which is only extended. -/
theorem makeOrdersCore_logs (s : mm_Product_Strategy) (fp : Int) (od : OrderDepth)
    (pos : Int) (logs : String) :
    makeOrdersCore s fp od pos logs =
      ((makeOrdersCore s fp od pos emptyStr).1, logs ++ (makeOrdersCore s fp od pos emptyStr).2) := by
  simp only [makeOrdersCore]
  rw [phase1_eq s fp od pos logs, phase1_eq s fp od pos emptyStr]
  simp [String.append_assoc, emptyStr, String.empty_append]

/-- Claim C1 (amended): for every market snapshot whose starting
position lies in `[-limit, limit]`, whose sell-side volumes are
negative and buy-side volumes positive, and whose strategy parameters
additionally satisfy `2 * custom_limit ≤ limit + 1`, the position
after every initial segment of the order list generated by
`makeOrders` stays within `[-limit, limit]`. -/
theorem makeOrders_position_bound (s : mm_Product_Strategy) (st : TradingState)
    (od : OrderDepth) (pos : Int) (orders : List Order) (logs : String)
    (hod : alookup st.order_depths s.productSymbol = some od)
    (hpos : pos = (alookup st.position s.productSymbol).getD 0)
    (hlb : -s.limit ≤ pos) (hub : pos ≤ s.limit)
    (hsell : ∀ pv ∈ od.sell_orders, pv.2 < 0)
    (hbuy : ∀ pv ∈ od.buy_orders, 0 < pv.2)
    (hcl : 2 * s.custom_limit ≤ s.limit + 1)
    (horders : (s.makeOrders st logs).1 = Except.ok orders) :
    ∀ k, -s.limit ≤ applyOrders pos (orders.take k)
        ∧ applyOrders pos (orders.take k) ≤ s.limit := by
  have hmatch : (match alookup st.position s.productSymbol with
      | none => 0 | some p => p) = (alookup st.position s.productSymbol).getD 0 := by
    cases alookup st.position s.productSymbol <;> rfl
  simp only [mm_Product_Strategy.makeOrders, hod] at horders
  rw [hmatch, ← hpos] at horders
  have horders' : orders = (makeOrdersCore s (s.fairValue st) od pos logs).1 :=
    (Except.ok.injEq _ _ ▸ horders).symm
  rw [horders']
  exact makeOrdersCore_bounds s (s.fairValue st) od pos logs hsell hbuy hlb hub hcl

/-- Witness for C1 at the spec's first scenario: with the Resin
parameters and starting position 0, the position after the first three
generated orders stays within `[-50, 50]`. -/
theorem makeOrders_position_bound_witness :
    -(50 : Int) ≤ applyOrders 0 (([⟨resinSym, 9998, 5⟩, ⟨resinSym, 10002, -4⟩,
        ⟨resinSym, 9998, 15⟩, ⟨resinSym, 10002, -15⟩] : List Order).take 3)
      ∧ applyOrders 0 (([⟨resinSym, 9998, 5⟩, ⟨resinSym, 10002, -4⟩,
        ⟨resinSym, 9998, 15⟩, ⟨resinSym, 10002, -15⟩] : List Order).take 3) ≤ 50 := by
  have h := makeOrders_position_bound Rainforest_Resin_Strategy scene1State scene1Depth 0
    [⟨resinSym, 9998, 5⟩, ⟨resinSym, 10002, -4⟩, ⟨resinSym, 9998, 15⟩, ⟨resinSym, 10002, -15⟩]
    emptyStr (by decide) (by decide) (by decide) (by decide) (by decide) (by decide) (by decide)
    rfl 3
  exact h

/-- Counterexample to C1 as stated: `cexStrategy` has limit 10 and
custom limit 8, `cexStateC1` has an empty book (so the volume-sign
hypotheses hold vacuously) and starting position 7 within `[-10, 10]`,
yet after the first generated order the position is 15 > 10. -/
theorem makeOrders_position_bound_cex :
    (cexStrategy.makeOrders cexStateC1 emptyStr).1 = Except.ok cexOrders
      ∧ (alookup cexStateC1.position cexStrategy.productSymbol).getD 0 = 7
      ∧ -cexStrategy.limit ≤ (7 : Int) ∧ (7 : Int) ≤ cexStrategy.limit
      ∧ ¬ applyOrders 7 (cexOrders.take 1) ≤ cexStrategy.limit := by
  exact ⟨rfl, by decide, by decide, by decide, by decide⟩

/-- Claim C2: on the spec's first scenario (fair value 10000, spread
2, custom limit 15, liquidate value 0, limit 50, position 0, sell book
9998 with -5, buy book 10002 with 4), `makeOrders` returns exactly the
four orders: buy 5 at 9998, sell 4 at 10002, buy 15 at 9998, sell 15
at 10002, in this order. -/
theorem resin_scene1_orders :
    (Rainforest_Resin_Strategy.makeOrders scene1State emptyStr).1 =
      Except.ok [⟨resinSym, 9998, 5⟩, ⟨resinSym, 10002, -4⟩,
        ⟨resinSym, 9998, 15⟩, ⟨resinSym, 10002, -15⟩] := rfl

/-- Claim C3: the quote prices are given by the spec's skewing rule
(`skewedBuyPrice`/`skewedSellPrice`) — before phase 1 at the starting
position, and again in phase 2 recomputed by the same rule at the
updated running position, which is the position phase 2 receives from
phase 1 inside `makeOrdersCore`. -/
theorem makeOrders_skewed_price_rule (s : mm_Product_Strategy) (fp : Int)
    (od : OrderDepth) (pos p2pos : Int) (logs : String) :
    (phase1 s fp od pos logs).1 =
      (buyLoop0 s.productSymbol (skewedBuyPrice s.custom_limit s.liquidate_val s.spread fp pos)
          s.limit od.sell_orders pos).1 ++
        (sellLoop0 s.productSymbol (skewedSellPrice s.custom_limit s.liquidate_val s.spread fp pos)
          s.limit od.buy_orders
          (buyLoop0 s.productSymbol (skewedBuyPrice s.custom_limit s.liquidate_val s.spread fp pos)
            s.limit od.sell_orders pos).2.1).1
    ∧ (phase2 s fp p2pos).1 =
        (if p2pos ≤ -s.custom_limit then
          [⟨s.productSymbol, skewedBuyPrice s.custom_limit s.liquidate_val s.spread fp p2pos,
            -p2pos⟩]
        else if p2pos ≥ s.custom_limit then
          [⟨s.productSymbol, skewedSellPrice s.custom_limit s.liquidate_val s.spread fp p2pos,
            -p2pos⟩]
        else
          [⟨s.productSymbol, skewedBuyPrice s.custom_limit s.liquidate_val s.spread fp p2pos,
              s.custom_limit⟩,
           ⟨s.productSymbol, skewedSellPrice s.custom_limit s.liquidate_val s.spread fp p2pos,
              -s.custom_limit⟩])
    ∧ (makeOrdersCore s fp od pos logs).1 =
        (phase1 s fp od pos logs).1 ++ (phase2 s fp (phase1 s fp od pos logs).2.1).1 := by
  refine ⟨?_, phase2_orders s fp p2pos, makeOrdersCore_orders s fp od pos logs⟩
  rw [phase1_eq]

/-- Claim C4: whenever the running position after phase 1 lies
strictly between `-custom_limit` and `custom_limit`, phase 2 appends
exactly one buy of size `custom_limit` at `fair - spread` and one sell
of size `custom_limit` at `fair + spread` — the size is the parameter
itself, never clipped to the remaining headroom under `limit`. -/
theorem phase2_normal_band (s : mm_Product_Strategy) (fp : Int) (od : OrderDepth)
    (pos p1 : Int) (logs : String)
    (hp1 : p1 = (phase1 s fp od pos logs).2.1)
    (hlo : -s.custom_limit < p1) (hhi : p1 < s.custom_limit) :
    (makeOrdersCore s fp od pos logs).1 =
      (phase1 s fp od pos logs).1 ++
        [⟨s.productSymbol, fp - s.spread, s.custom_limit⟩,
         ⟨s.productSymbol, fp + s.spread, -s.custom_limit⟩] := by
  have h1 : ¬ ((phase1 s fp od pos logs).2.1 ≤ -s.custom_limit) := by omega
  have h2 : ¬ ((phase1 s fp od pos logs).2.1 ≥ s.custom_limit) := by omega
  rw [makeOrdersCore_orders, phase2_orders, if_neg h1, if_neg h2]
  simp [skewedBuyPrice, skewedSellPrice, h1, h2]

/-- Witness for C4: Resin parameters, empty book, position 0 — the
output is exactly the two `custom_limit = 15` sized quotes. -/
theorem phase2_normal_band_witness :
    (makeOrdersCore Rainforest_Resin_Strategy 10000 emptyDepth 0 emptyStr).1 =
      [⟨resinSym, 9998, 15⟩, ⟨resinSym, 10002, -15⟩] := by
  have h := phase2_normal_band Rainforest_Resin_Strategy 10000 emptyDepth 0 0 emptyStr
    rfl (by decide) (by decide)
  rw [h]
  rfl

/-- Claim C5: whenever the running position after phase 1 is at most
`-custom_limit`, phase 2 appends exactly one buy order of quantity
`-position` (bringing the position exactly to 0) at the liquidation
buy price `fair + liquidate_val`. -/
theorem phase2_liquidation_buy (s : mm_Product_Strategy) (fp : Int) (od : OrderDepth)
    (pos p1 : Int) (logs : String)
    (hp1 : p1 = (phase1 s fp od pos logs).2.1)
    (h : p1 ≤ -s.custom_limit) :
    (makeOrdersCore s fp od pos logs).1 =
      (phase1 s fp od pos logs).1 ++ [⟨s.productSymbol, fp + s.liquidate_val, -p1⟩]
    ∧ applyOrders p1 [⟨s.productSymbol, fp + s.liquidate_val, -p1⟩] = 0 := by
  constructor
  · rw [hp1] at h
    rw [makeOrdersCore_orders, phase2_orders, if_pos h, ← hp1]
    simp [skewedBuyPrice, hp1 ▸ h]
  · simp [applyOrders]

/-- Witness for C5, the spec's second scenario: starting position -20
(beyond custom limit 15), empty book — the full output is a single buy
of 20 at `fairValue + liquidateVal = 10000`. -/
theorem phase2_liquidation_buy_witness :
    (Rainforest_Resin_Strategy.makeOrders negState emptyStr).1 =
      Except.ok [⟨resinSym, 10000, 20⟩] := by
  have h := phase2_liquidation_buy Rainforest_Resin_Strategy 10000 emptyDepth (-20) (-20) emptyStr
    rfl (by decide)
  have h2 : (makeOrdersCore Rainforest_Resin_Strategy 10000 emptyDepth (-20) emptyStr).1 =
      [⟨resinSym, 10000, 20⟩] := by
    rw [h.1]
    rfl
  show Except.ok (makeOrdersCore Rainforest_Resin_Strategy 10000 emptyDepth (-20) emptyStr).1 =
      Except.ok [⟨resinSym, 10000, 20⟩]
  rw [h2]

/-- Claim C6: in phase 1 each book level is evaluated in place — a
sell level is taken (a buy order of the full level volume, converted
to positive) exactly when its price is at most the buy price and the
fill keeps the running position at most `limit`, with the position
updated after each fill; symmetrically for buy levels against the sell
price and `-limit`; and both loops continue through an appended
segment from the accumulated state, so every level present is
evaluated with no early termination. -/
theorem phase1_level_rule (sym : String) (fbp fsp lim : Int) :
    (∀ (price volume : Int) (rest : List (Int × Int)) (pos : Int) (acc : List Order)
        (logs : String),
      buyLoop sym fbp lim ((price, volume) :: rest) pos acc logs =
        if price ≤ fbp ∧ pos - volume ≤ lim then
          buyLoop sym fbp lim rest (pos - volume) (acc ++ [⟨sym, price, -volume⟩])
            (logs ++ "BUY " ++ toString (-volume) ++ "x " ++ toString price ++ "\n")
        else buyLoop sym fbp lim rest pos acc logs)
    ∧ (∀ (price volume : Int) (rest : List (Int × Int)) (pos : Int) (acc : List Order)
        (logs : String),
      sellLoop sym fsp lim ((price, volume) :: rest) pos acc logs =
        if price ≥ fsp ∧ pos - volume ≥ -lim then
          sellLoop sym fsp lim rest (pos - volume) (acc ++ [⟨sym, price, -volume⟩])
            (logs ++ "SELL " ++ toString volume ++ "x " ++ toString price ++ "\n")
        else sellLoop sym fsp lim rest pos acc logs)
    ∧ (∀ (xs ys : List (Int × Int)) (pos : Int) (acc : List Order) (logs : String),
      buyLoop sym fbp lim (xs ++ ys) pos acc logs =
        buyLoop sym fbp lim ys (buyLoop sym fbp lim xs pos acc logs).2.1
          (buyLoop sym fbp lim xs pos acc logs).1
          (buyLoop sym fbp lim xs pos acc logs).2.2)
    ∧ (∀ (xs ys : List (Int × Int)) (pos : Int) (acc : List Order) (logs : String),
      sellLoop sym fsp lim (xs ++ ys) pos acc logs =
        sellLoop sym fsp lim ys (sellLoop sym fsp lim xs pos acc logs).2.1
          (sellLoop sym fsp lim xs pos acc logs).1
          (sellLoop sym fsp lim xs pos acc logs).2.2) := by
  refine ⟨?_, ?_, buyLoop_append sym fbp lim, sellLoop_append sym fsp lim⟩
  · intro price volume rest pos acc logs
    rfl
  · intro price volume rest pos acc logs
    rfl

/-- Claim C7: when the snapshot's order-depth table has no entry for
the strategy's instrument, `makeOrders` fails fast with the KeyError
rather than returning an order list; when only the position entry is
absent, the position is read as 0 and the call succeeds. -/
theorem makeOrders_missing_entries (s : mm_Product_Strategy) (st : TradingState)
    (logs : String) :
    (alookup st.order_depths s.productSymbol = none →
      (s.makeOrders st logs).1 = Except.error keyErrorMsg)
    ∧ (∀ od, alookup st.order_depths s.productSymbol = some od →
        alookup st.position s.productSymbol = none →
        (s.makeOrders st logs).1 =
          Except.ok (makeOrdersCore s (s.fairValue st) od 0 logs).1) := by
  constructor
  · intro h
    simp [mm_Product_Strategy.makeOrders, h]
  · intro od hod hpos
    simp [mm_Product_Strategy.makeOrders, hod, hpos]

/-- Witness for C7: the Resin strategy raises on the empty snapshot
(no order book), and succeeds with position 0 on a snapshot with a
book but no position entry. -/
theorem makeOrders_missing_entries_witness :
    (Rainforest_Resin_Strategy.makeOrders state0 emptyStr).1 = Except.error keyErrorMsg
    ∧ (Rainforest_Resin_Strategy.makeOrders noPosState emptyStr).1 =
        Except.ok (makeOrdersCore Rainforest_Resin_Strategy 10000 scene1Depth 0 emptyStr).1 := by
  constructor
  · exact (makeOrders_missing_entries Rainforest_Resin_Strategy state0 emptyStr).1 rfl
  · exact (makeOrders_missing_entries Rainforest_Resin_Strategy noPosState emptyStr).2
      scene1Depth rfl rfl

/-- Claim C8: `makeOrders` is deterministic and side-effect free on
its input: the returned order list is the same function of the
snapshot regardless of the ambient logger buffer, and the
state-threading rendering returns the snapshot unchanged while
computing the same result. -/
theorem makeOrders_pure (s : mm_Product_Strategy) (st : TradingState) (lg1 lg2 : String) :
    (s.makeOrders st lg1).1 = (s.makeOrders st lg2).1
    ∧ (s.makeOrdersST st lg1).2.1 = st
    ∧ (s.makeOrdersST st lg1).1 = (s.makeOrders st lg1).1 := by
  refine ⟨?_, ?_, ?_⟩
  · cases h : alookup st.order_depths s.productSymbol with
    | none => simp [mm_Product_Strategy.makeOrders, h]
    | some od =>
      simp only [mm_Product_Strategy.makeOrders, h]
      rw [makeOrdersCore_logs s (s.fairValue st) od
          (match alookup st.position s.productSymbol with | none => 0 | some p => p) lg1,
        makeOrdersCore_logs s (s.fairValue st) od
          (match alookup st.position s.productSymbol with | none => 0 | some p => p) lg2]
  · cases h : alookup st.order_depths s.productSymbol with
    | none => simp [mm_Product_Strategy.makeOrdersST, h]
    | some od => simp [mm_Product_Strategy.makeOrdersST, h]
  · cases h : alookup st.order_depths s.productSymbol with
    | none => simp [mm_Product_Strategy.makeOrders, mm_Product_Strategy.makeOrdersST, h]
    | some od => simp [mm_Product_Strategy.makeOrders, mm_Product_Strategy.makeOrdersST, h]

/-- Lookup skips over a first block in which the key is absent. -/
theorem alookup_append_none {α : Type} (l1 l2 : List (String × α)) (k : String)
    (h : alookup l1 k = none) : alookup (l1 ++ l2) k = alookup l2 k := by
  induction l1 with
  | nil => rfl
  | cons hd tl ih =>
    rcases hd with ⟨k', v⟩
    by_cases hk : k' = k
    · simp [alookup, hk] at h
    · simp only [alookup, hk, if_neg hk, List.cons_append] at h ⊢
      exact ih h

/-- If a symbol is missing from the remaining `market_trades` keys, or
missing from the registry, and it is not already in the accumulator,
then it is absent from the loop's successful result. -/
theorem runLoop_result (st : TradingState) :
    ∀ (mt : List (String × List Trade)) (acc res : List (String × List Order))
      (logs logs' : String) (sym : String),
      runLoop st mt acc logs = (Except.ok res, logs') →
      alookup acc sym = none →
      (sym ∉ mt.map Prod.fst ∨ alookup strategies sym = none) →
      alookup res sym = none := by
  intro mt
  induction mt with
  | nil =>
    intro acc res logs logs' sym h hacc _
    simp only [runLoop, Prod.mk.injEq, Except.ok.injEq] at h
    rw [← h.1]
    exact hacc
  | cons hd tl ih =>
    intro acc res logs logs' sym h hacc hcond
    rcases hd with ⟨product, trades⟩
    have hsym : sym ∉ tl.map Prod.fst ∨ alookup strategies sym = none := by
      rcases hcond with hc | hc
      · exact Or.inl fun hmem => hc (by simp [hmem])
      · exact Or.inr hc
    cases hreg : alookup strategies product with
    | none =>
      rw [show runLoop st ((product, trades) :: tl) acc logs = runLoop st tl acc logs by
        simp [runLoop, hreg]] at h
      exact ih acc res logs logs' sym h hacc hsym
    | some strat =>
      have hne : product ≠ sym := by
        intro he
        rcases hcond with hc | hc
        · exact hc (by simp [he])
        · rw [he] at hreg
          rw [hreg] at hc
          exact Option.noConfusion hc
      cases hmk : strat.makeOrders st logs with
      | mk r logs2 =>
        cases r with
        | error e =>
          rw [show runLoop st ((product, trades) :: tl) acc logs = (Except.error e, logs2) by
            simp [runLoop, hreg, hmk]] at h
          simp at h
        | ok orders =>
          rw [show runLoop st ((product, trades) :: tl) acc logs =
              runLoop st tl (acc ++ [(product, orders)]) logs2 by
            simp [runLoop, hreg, hmk]] at h
          refine ih (acc ++ [(product, orders)]) res logs2 logs' sym h ?_ hsym
          rw [alookup_append_none _ _ _ hacc]
          simp [alookup, hne]

/-- Claim C10: `Trader.run` produces orders only for instruments that
are keys of the snapshot's `market_trades` table and of the strategy
registry: a symbol absent from `market_trades` (in particular a
registered one whose book is present) gets no result entry, and a
symbol present in `market_trades` but not registered is silently
skipped, also getting no entry. -/
theorem run_market_trades_keys (st : TradingState) (logs : String)
    (res : List (String × List Order)) (sym : String)
    (hrun : Except.map (fun x => x.1.1) (Trader.run st logs) = Except.ok res) :
    (sym ∉ st.market_trades.map Prod.fst → alookup res sym = none)
    ∧ (alookup strategies sym = none → alookup res sym = none) := by
  unfold Trader.run at hrun
  cases h : runLoop st st.market_trades [] logs with
  | mk r logs' =>
    rw [h] at hrun
    cases r with
    | error e => simp [Except.map] at hrun
    | ok result =>
      simp only [Except.map, Except.ok.injEq] at hrun
      constructor
      · intro hmem
        rw [← hrun]
        exact runLoop_result st st.market_trades [] result logs logs' sym h rfl (Or.inl hmem)
      · intro hreg
        rw [← hrun]
        exact runLoop_result st st.market_trades [] result logs logs' sym h rfl (Or.inr hreg)

/-- Witness for C10 on `mtState`: the run succeeds with an empty
result, containing no entry for registered RAINFOREST_RESIN (book
present, no `market_trades` entry) nor for unregistered KELP (present
in `market_trades`). -/
theorem run_market_trades_keys_witness :
    alookup ([] : List (String × List Order)) resinSym = none
    ∧ alookup ([] : List (String × List Order)) kelpSym = none := by
  constructor
  · exact (run_market_trades_keys mtState emptyStr [] resinSym rfl).1 (by decide)
  · exact (run_market_trades_keys mtState emptyStr [] kelpSym rfl).2 rfl

theorem escape_empty : escape emptyStr = emptyStr := rfl

theorem emptyStr_length : emptyStr.length = 0 := rfl

/-- A plain string JSON-escapes to itself. -/
theorem escape_of_isPlain (s : String) (h : isPlain s = true) : escape s = s := by
  have hall : ∀ c ∈ s.data, escChar c = [c] := by
    intro c hc
    exact beq_iff_eq.mp (List.all_eq_true.mp h c hc)
  have hgen : ∀ l : List Char, (∀ c ∈ l, escChar c = [c]) → l.flatMap escChar = l := by
    intro l
    induction l with
    | nil => intro; rfl
    | cons c t ih =>
      intro hl
      rw [List.flatMap_cons, hl c (by simp), ih fun d hd => hl d (by simp [hd])]
      rfl
  unfold escape
  rw [hgen s.data hall]

/-- Truncation of a plain string is plain (only characters of the
string and the plain character `.` remain). -/
theorem isPlain_truncate (s : String) (L : Int) (h : isPlain s = true) :
    isPlain (Logger.truncate s L) = true := by
  unfold Logger.truncate
  by_cases hc : (s.length : Int) ≤ L
  · rw [if_pos hc]; exact h
  · rw [if_neg hc]
    unfold isPlain at h ⊢
    rw [String.data_append]
    rw [List.all_append]
    simp only [Bool.and_eq_true]
    refine ⟨?_, by decide⟩
    unfold pyTake
    by_cases h0 : (0 : Int) ≤ L - 3
    · rw [if_pos h0, String.data_take]
      exact List.all_eq_true.mpr fun c hcm =>
        List.all_eq_true.mp h c (List.mem_of_mem_take hcm)
    · rw [if_neg h0, String.data_take]
      exact List.all_eq_true.mpr fun c hcm =>
        List.all_eq_true.mp h c (List.mem_of_mem_take hcm)

/-- When each field's budget is at least 3, a truncated string has
length at most that budget. -/
theorem truncate_length_le (s : String) (L : Int) (hL : 3 ≤ L) :
    ((Logger.truncate s L).length : Int) ≤ L := by
  unfold Logger.truncate
  by_cases h : (s.length : Int) ≤ L
  · rw [if_pos h]; exact h
  · rw [if_neg h]
    unfold pyTake
    rw [if_pos (by omega : (0 : Int) ≤ L - 3)]
    rw [String.length_append]
    have h1 : (s.take (L - 3).toNat).length ≤ (L - 3).toNat := by
      show (s.take (L - 3).toNat).data.length ≤ (L - 3).toNat
      rw [String.data_take]
      simp [List.length_take]
    have h2 : ("..." : String).length = 3 := rfl
    rw [h2]
    push_cast
    omega

/-- The length of the flush line decomposes as the length with the
three free-text fields empty plus the escaped lengths of the three
fields. -/
theorem flushArr_length (st : TradingState) (ords : List (String × List Order)) (conv : Int)
    (t1 t2 t3 : String) :
    (dumps (flushArr st ords conv t1 t2 t3)).length =
      (dumps (flushArr st ords conv emptyStr emptyStr emptyStr)).length
        + (escape t1).length + (escape t2).length + (escape t3).length := by
  simp only [flushArr, compress_state, dumps, dumpsArr, String.length_append,
    escape_empty, emptyStr_length]
  omega

/-- Claim C9 (amended): `flush` truncates the three free-text fields
(state trader data, the auxiliary trader-data string, the accumulated
logs) equally, each to the budget `(max_log_length - base) // 3`; the
single produced line has length at most `max_log_length = 3750`
provided the serialization with the three fields empty fits in 3741
(so each field budget is at least 3) and the three fields hold only
plain characters (no JSON escape expansion). -/
theorem flush_length_bound (state : TradingState) (orders : List (String × List Order))
    (conversions : Int) (trader_data logs : String)
    (hbase : ((dumps (flushArr state orders conversions emptyStr emptyStr emptyStr)).length : Int) ≤ 3741)
    (h1 : isPlain state.traderData = true) (h2 : isPlain trader_data = true)
    (h3 : isPlain logs = true) :
    (((Logger.flush logs state orders conversions trader_data).1).length : Int) ≤ 3750 := by
  have hL3 : 3 ≤ Int.fdiv (max_log_length
      - ((dumps (flushArr state orders conversions emptyStr emptyStr emptyStr)).length : Int)) 3 := by
    rw [Int.fdiv_eq_ediv _ (by norm_num)]
    unfold max_log_length
    omega
  have hLmul : 3 * Int.fdiv (max_log_length
      - ((dumps (flushArr state orders conversions emptyStr emptyStr emptyStr)).length : Int)) 3 ≤
      max_log_length - ((dumps (flushArr state orders conversions emptyStr emptyStr emptyStr)).length : Int) := by
    rw [Int.fdiv_eq_ediv _ (by norm_num)]
    unfold max_log_length
    omega
  have hflush : (Logger.flush logs state orders conversions trader_data).1 =
      dumps (flushArr state orders conversions
        (Logger.truncate state.traderData (Int.fdiv (max_log_length
          - ((dumps (flushArr state orders conversions emptyStr emptyStr emptyStr)).length : Int)) 3))
        (Logger.truncate trader_data (Int.fdiv (max_log_length
          - ((dumps (flushArr state orders conversions emptyStr emptyStr emptyStr)).length : Int)) 3))
        (Logger.truncate logs (Int.fdiv (max_log_length
          - ((dumps (flushArr state orders conversions emptyStr emptyStr emptyStr)).length : Int)) 3))) := rfl
  rw [hflush, flushArr_length]
  rw [escape_of_isPlain _ (isPlain_truncate _ _ h1),
    escape_of_isPlain _ (isPlain_truncate _ _ h2),
    escape_of_isPlain _ (isPlain_truncate _ _ h3)]
  have t1 := truncate_length_le state.traderData _ hL3
  have t2 := truncate_length_le trader_data _ hL3
  have t3 := truncate_length_le logs _ hL3
  unfold max_log_length at hLmul t1 t2 t3 ⊢
  push_cast
  omega

/-- Witness for C9 on the minimal snapshot: the flushed line fits the
3750 budget. -/
theorem flush_length_bound_witness :
    (((Logger.flush emptyStr state0 [] 0 emptyStr).1).length : Int) ≤ 3750 := by
  exact flush_length_bound state0 [] 0 emptyStr emptyStr (by decide) (by decide) (by decide) (by decide)

/-- The escape of `n` plain letters has length `n`. -/
theorem flatMap_escChar_replicate (n : Nat) :
    ((List.replicate n 'A').flatMap escChar).length = n := by
  induction n with
  | zero => rfl
  | succ m ih =>
    rw [List.replicate_succ, List.flatMap_cons, List.length_append, ih]
    have h1 : (escChar 'A').length = 1 := by decide
    omega

theorem escape_bigSym_length : (escape bigSym).length = 3800 := by
  show (bigSym.data.flatMap escChar).length = 3800
  have hd : bigSym.data = List.replicate 3800 'A' := rfl
  rw [hd]
  exact flatMap_escChar_replicate 3800

/-- Counterexample to C9 as stated: on `bigState` (a 3800-character
symbol in the position table, which `flush` never truncates), the
produced line is longer than `max_log_length = 3750`. -/
theorem flush_length_bound_cex :
    3750 < ((Logger.flush emptyStr bigState [] 0 emptyStr).1).length := by
  have hline : (Logger.flush emptyStr bigState [] 0 emptyStr).1 =
      dumps (flushArr bigState [] 0
        (Logger.truncate bigState.traderData (Int.fdiv (max_log_length
          - ((dumps (flushArr bigState [] 0 emptyStr emptyStr emptyStr)).length : Int)) 3))
        (Logger.truncate emptyStr (Int.fdiv (max_log_length
          - ((dumps (flushArr bigState [] 0 emptyStr emptyStr emptyStr)).length : Int)) 3))
        (Logger.truncate emptyStr (Int.fdiv (max_log_length
          - ((dumps (flushArr bigState [] 0 emptyStr emptyStr emptyStr)).length : Int)) 3))) := rfl
  rw [hline, flushArr_length]
  have hbase : 3750 < (dumps (flushArr bigState [] 0 emptyStr emptyStr emptyStr)).length := by
    simp only [flushArr, bigState, compress_state, compress_listings, compress_order_depths,
      compress_trades, compress_observations, compress_orders, List.map_nil, List.map_cons,
      List.flatMap_nil, List.flatMap_cons, List.nil_append, List.append_nil,
      dumps, dumpsArr, dumpsObj, escape_empty, String.length_append, escape_bigSym_length]
    decide
  omega
